import Mathlib

/-!
Usage-accounting aggregator: shallow embedding.

A shallow embedding of the usage-accounting core of the repository:
a `UsageMeter` accumulating per-model token/cost records into two
ledgers ("actual" = non-cached only, "total" = everything), and a
`gather` aggregator combining the ledgers of several entities.

The repository ships only the demonstration notebook
(`notebook/agentchat_cost_token_tracking.ipynb`) and a markdown guide;
the accounting implementation itself (the library behind
`print_usage_summary`, `get_actual_usage`, `get_total_usage`,
`clear_usage_summary`, `gather_usage_summary`) is repository code that
is not part of the source tree here, so the definitions below are
modelled from the specification, anchored on the concrete inputs and
outputs recorded in the notebook.

Costs are carried as exact rationals `ℚ`; the binary floating-point
behaviour of cost accumulation is modelled separately at the end of the
file (`roundDouble`, `floatAdd`) as round-to-nearest-even binary64
arithmetic over `ℚ`.
-/

namespace UsageSpec

/-- Modelled from the spec: a `UsageRecord`, one per completion call.
The implementation producing these records is not under the source
tree; fields follow the spec's data model (`model_id`, token counts,
`cost`, `from_cache`).  Token counts are carried as `ℤ` so that the
malformed (negative) inputs of the error-handling requirements are
representable; well-formed records have non-negative fields. -/
structure UsageRecord where
  model_id : String
  prompt_tokens : ℤ
  completion_tokens : ℤ
  cost : ℚ
  from_cache : Bool
deriving DecidableEq

/-- A record is well formed when its numeric fields are non-negative. -/
def UsageRecord.WellFormed (r : UsageRecord) : Prop :=
  0 ≤ r.prompt_tokens ∧ 0 ≤ r.completion_tokens ∧ 0 ≤ r.cost

instance (r : UsageRecord) : Decidable r.WellFormed := by
  unfold UsageRecord.WellFormed; infer_instance

/-- Modelled from the spec: the per-model aggregate (`ModelUsage`) kept
inside a ledger: running sums of cost, prompt tokens, completion tokens
and total tokens. -/
structure ModelUsage where
  cost : ℚ
  prompt_tokens : ℤ
  completion_tokens : ℤ
  total_tokens : ℤ
deriving DecidableEq

/-- The all-zero aggregate used when a model key first appears. -/
def emptyUsage : ModelUsage := ⟨0, 0, 0, 0⟩

/-- Elementwise sum of two per-model aggregates (the merge rule of the
aggregator). -/
def muAdd (a b : ModelUsage) : ModelUsage :=
  { cost := a.cost + b.cost
    prompt_tokens := a.prompt_tokens + b.prompt_tokens
    completion_tokens := a.completion_tokens + b.completion_tokens
    total_tokens := a.total_tokens + b.total_tokens }

/-- Folding one record into a per-model aggregate: add cost and token
counts; `total_tokens` accumulates the record's prompt plus completion
tokens. -/
def addRecord (mu : ModelUsage) (r : UsageRecord) : ModelUsage :=
  { cost := mu.cost + r.cost
    prompt_tokens := mu.prompt_tokens + r.prompt_tokens
    completion_tokens := mu.completion_tokens + r.completion_tokens
    total_tokens := mu.total_tokens + (r.prompt_tokens + r.completion_tokens) }

/-- Modelled from the spec: a ledger is a mapping from `model_id` to
`ModelUsage`, kept in insertion order of first appearance. -/
abbrev UsageLedger := List (String × ModelUsage)

/-- Look up a model's aggregate in a ledger, defaulting to the all-zero
aggregate when the key is absent. -/
def lookupUsage (l : UsageLedger) (k : String) : ModelUsage :=
  match l with
  | [] => emptyUsage
  | (k', mu) :: rest => if k' = k then mu else lookupUsage rest k

/-- Whether a ledger has an entry for a model key. -/
def containsKey (l : UsageLedger) (k : String) : Bool :=
  match l with
  | [] => false
  | (k', _) :: rest => k' = k || containsKey rest k

/-- The ledger's derived `total_cost`: sum of the per-model costs. -/
def ledgerCost (l : UsageLedger) : ℚ :=
  (l.map (fun e => e.2.cost)).sum

/-- Add a per-model aggregate into a ledger at key `k` (elementwise sum
with the existing entry, creating the entry at the end if absent). -/
def ledgerAddEntry (l : UsageLedger) (k : String) (mu : ModelUsage) : UsageLedger :=
  match l with
  | [] => [(k, mu)]
  | (k', mu') :: rest =>
    if k' = k then (k', muAdd mu' mu) :: rest
    else (k', mu') :: ledgerAddEntry rest k mu

/-- Fold one usage record into a ledger at the record's model key. -/
def ledgerAdd (l : UsageLedger) (r : UsageRecord) : UsageLedger :=
  match l with
  | [] => [(r.model_id, addRecord emptyUsage r)]
  | (k', mu') :: rest =>
    if k' = r.model_id then (k', addRecord mu' r) :: rest
    else (k', mu') :: ledgerAdd rest r

/-- Merge ledger `b` into ledger `a`: union of model keys, elementwise
sums (the aggregator's generalized merge rule). -/
def ledgerMerge (a b : UsageLedger) : UsageLedger :=
  b.foldl (fun acc e => ledgerAddEntry acc e.1 e.2) a

/-- All keys of a ledger are distinct: the representation invariant of
a ledger as a mapping from model ids to aggregates. -/
def keysNodup (l : UsageLedger) : Prop := (l.map Prod.fst).Nodup

/-- Modelled from the spec: the `UsageMeter`, owner of the two parallel
ledgers.  The meter implementation (the library behind the notebook's
`print_usage_summary` / `clear_usage_summary` calls) is not under the
source tree. -/
structure UsageMeter where
  actual : UsageLedger
  total : UsageLedger
deriving DecidableEq

/-- A freshly created meter: both ledgers empty. -/
def emptyMeter : UsageMeter := ⟨[], []⟩

/-- The unchecked accumulation step: every record goes into the total
ledger; non-cached records additionally go into the actual ledger. -/
def UsageMeter.recordCore (m : UsageMeter) (r : UsageRecord) : UsageMeter :=
  { actual := if r.from_cache then m.actual else ledgerAdd m.actual r
    total := ledgerAdd m.total r }

/-- Modelled from the spec: `record`.  A well-formed record is folded
into the ledgers and the operation never fails; a malformed record
(negative token count or cost) is rejected with an invalid-argument
error and contributes nothing. -/
def UsageMeter.record (m : UsageMeter) (r : UsageRecord) : Except String UsageMeter :=
  if r.WellFormed then Except.ok (m.recordCore r)
  else Except.error "invalid argument: usage record fields must be non-negative"

/-- Feed a whole sequence of records through `record`, stopping at the
first rejected record. -/
def UsageMeter.recordAll (m : UsageMeter) : List UsageRecord → Except String UsageMeter
  | [] => Except.ok m
  | r :: rs =>
    match m.record r with
    | Except.ok m2 => m2.recordAll rs
    | Except.error e => Except.error e

/-- Modelled from the spec: `getActualUsage` returns `none` when no
non-cached record was ever recorded, otherwise the actual ledger. -/
def UsageMeter.getActualUsage (m : UsageMeter) : Option UsageLedger :=
  if m.actual = ([] : UsageLedger) then none else some m.actual

/-- Modelled from the spec: `getTotalUsage` returns `none` when no
record of any kind was ever recorded, otherwise the total ledger. -/
def UsageMeter.getTotalUsage (m : UsageMeter) : Option UsageLedger :=
  if m.total = ([] : UsageLedger) then none else some m.total

/-- Modelled from the spec: `clear` resets both ledgers, as if the
meter were newly created. -/
def UsageMeter.clear (_ : UsageMeter) : UsageMeter := emptyMeter

/-- The two recognized mode flags of the summary formatter. -/
def validMode (s : String) : Bool := s == "actual" || s == "total"

/-- One per-model line of the textual report. -/
def usageLine (k : String) (mu : ModelUsage) : String :=
  "; Model " ++ k ++ ": cost: " ++ toString mu.cost ++
  ", prompt_tokens: " ++ toString mu.prompt_tokens ++
  ", completion_tokens: " ++ toString mu.completion_tokens ++
  ", total_tokens: " ++ toString mu.total_tokens

/-- The report section for one ledger: total cost then per-model lines. -/
def formatUsage (title : String) (l : UsageLedger) : String :=
  title ++ ": Total cost: " ++ toString (ledgerCost l) ++
  String.join (l.map (fun e => usageLine e.1 e.2))

/-- The "actual" section: an explicit all-cache notice when there is
total usage but no actual usage. -/
def actualSection (m : UsageMeter) : String :=
  if m.actual = ([] : UsageLedger) then
    "No actual cost incurred (all completions are using cache)."
  else formatUsage "Usage summary excluding cached usage" m.actual

/-- The "total" section of the report. -/
def totalSection (m : UsageMeter) : String :=
  formatUsage "Usage summary including cached usage" m.total

/-- Modelled from the spec: `formatSummary`.  An unknown mode flag is
rejected as an invalid argument; with no usage at all the report states
that nothing was observed; when both modes are requested and the two
ledgers coincide, a no-cached-savings note replaces the duplicate total
section.  Exact wording is non-normative. -/
def UsageMeter.formatSummary (m : UsageMeter) (modes : List String) : Except String String :=
  if modes.all validMode = true then
    if m.total = ([] : UsageLedger) then
      Except.ok "No usage summary. Please call create first."
    else if "actual" ∈ modes ∧ "total" ∈ modes ∧ m.actual = m.total then
      Except.ok (actualSection m ++
        " All completions are non-cached: the total cost with cached completions is the same as actual cost.")
    else
      Except.ok (String.intercalate " "
        (modes.map (fun md => if md = "actual" then actualSection m else totalSection m)))
  else Except.error "invalid mode flag: mode must be a subset of actual and total"

/-- The operations a client performs on its meter over its lifetime. -/
inductive MeterOp where
  | record (r : UsageRecord)
  | clear
deriving DecidableEq

/-- Apply one operation to a meter state; a rejected (malformed) record
leaves the state unchanged. -/
def applyOp (m : UsageMeter) : MeterOp → UsageMeter
  | MeterOp.record r =>
    match m.record r with
    | Except.ok m2 => m2
    | Except.error _ => m
  | MeterOp.clear => m.clear

/-- Run a history of operations from a freshly created meter. -/
def runOps (ops : List MeterOp) : UsageMeter :=
  ops.foldl applyOp emptyMeter

/-- The suffix of a history after its last `clear` (the whole history
when it has no `clear`). -/
def opsSinceClear (ops : List MeterOp) : List MeterOp :=
  ops.foldl
    (fun acc op =>
      match op with
      | MeterOp.clear => []
      | MeterOp.record r => acc ++ [MeterOp.record r])
    []

/-- Modelled from the spec: an entity handed to the aggregator; agents
without an associated model backbone expose no meter. -/
structure Entity where
  meter : Option UsageMeter

/-- The actual-ledger contribution of an entity (empty when it exposes
no meter). -/
def entityActual (e : Entity) : UsageLedger :=
  match e.meter with
  | none => []
  | some m => m.actual

/-- The total-ledger contribution of an entity (empty when it exposes
no meter). -/
def entityTotal (e : Entity) : UsageLedger :=
  match e.meter with
  | none => []
  | some m => m.total

/-- An entity is well formed when its ledgers satisfy the mapping
representation invariant. -/
def Entity.WF (e : Entity) : Prop :=
  keysNodup (entityActual e) ∧ keysNodup (entityTotal e)

/-- The aggregator's result: the combined ledgers under their two
stable keys. -/
structure GatherResult where
  usage_excluding_cached_inference : UsageLedger
  usage_including_cached_inference : UsageLedger
deriving DecidableEq

/-- One aggregation step: merge one entity's ledgers into the running
combined ledgers. -/
def gatherStep (acc : GatherResult) (e : Entity) : GatherResult :=
  ⟨ledgerMerge acc.usage_excluding_cached_inference (entityActual e),
   ledgerMerge acc.usage_including_cached_inference (entityTotal e)⟩

/-- Modelled from the spec: `gather` (the notebook's
`gather_usage_summary`, whose implementation is not under the source
tree) merges each entity's ledgers into running combined ledgers, an
absent meter contributing nothing. -/
def gather (entities : List Entity) : GatherResult :=
  entities.foldl gatherStep ⟨[], []⟩

/-- State-passing form of `gather`, returning alongside the result the
entity states as they stand after aggregation (aggregation only reads
each entity). -/
def gatherSt (entities : List Entity) : GatherResult × List Entity :=
  entities.foldl (fun acc e => (gatherStep acc.1 e, acc.2 ++ [e])) (⟨[], []⟩, [])

/-- Elementwise sum of a list of per-model aggregates. -/
def muSum (ms : List ModelUsage) : ModelUsage := ms.foldr muAdd emptyUsage

/-- The combined prompt-plus-completion token count of one record. -/
def tokensOf (r : UsageRecord) : ℤ := r.prompt_tokens + r.completion_tokens

/-! Binary floating-point model.

The accumulation of `cost` values in the implementation uses binary64
(IEEE 754 double) arithmetic.  The model below represents a non-negative
finite double as a mantissa/exponent pair `(m, e) : ℕ × ℤ` of value
`m * 2^e`, and rounding to nearest-even over exact rationals given as
raw fractions of naturals.  It is exact for the normal range
(magnitudes of at least `2^-1100`); underflow to subnormals and
overflow are outside the modelled range. -/

/-- Fuel-driven binary length: `bitLen fuel n` is the number of binary
digits of `n` (zero for `n = 0`) whenever `fuel` bounds it. -/
def bitLen : ℕ → ℕ → ℕ
  | 0, _ => 0
  | fuel + 1, n => if n = 0 then 0 else bitLen fuel (n / 2) + 1

/-- Round the fraction `n / d` to the nearest integer, ties to even. -/
def roundFracEven (n d : ℕ) : ℕ :=
  let q := n / d
  let r := n % d
  if 2 * r < d then q
  else if d < 2 * r then q + 1
  else if q % 2 = 0 then q else q + 1

/-- The binary64 value nearest the fraction `a / b` (round to nearest,
ties to even), as a mantissa/exponent pair of value `m * 2^e`. -/
def dblRound (a b : ℕ) : ℕ × ℤ :=
  if a = 0 ∨ b = 0 then (0, 0)
  else
    let e : ℤ := (bitLen 2500 (a * 2 ^ 1100 / b) : ℤ) - 1101
    let s : ℤ := 52 - e
    let m :=
      if 0 ≤ s then roundFracEven (a * 2 ^ s.toNat) b
      else roundFracEven a (b * 2 ^ (-s).toNat)
    (m, e - 52)

/-- The exact rational value of a mantissa/exponent pair. -/
def dblVal (p : ℕ × ℤ) : ℚ :=
  if 0 ≤ p.2 then (p.1 : ℚ) * ((2 ^ p.2.toNat : ℕ) : ℚ)
  else (p.1 : ℚ) / ((2 ^ (-p.2).toNat : ℕ) : ℚ)

/-- Binary64 addition: the exact sum of the two values, re-rounded. -/
def dblAdd (p q : ℕ × ℤ) : ℕ × ℤ :=
  let emin := min p.2 q.2
  let n := p.1 * 2 ^ (p.2 - emin).toNat + q.1 * 2 ^ (q.2 - emin).toNat
  if 0 ≤ emin then dblRound (n * 2 ^ emin.toNat) 1
  else dblRound n (2 ^ (-emin).toNat)

/-- The double 0.0. -/
def dblZero : ℕ × ℤ := (0, 0)

/-- Accumulate a list of double costs with binary64 addition, the way
the aggregator accumulates per-entity costs. -/
def costFoldFl (cs : List (ℕ × ℤ)) : ℕ × ℤ := cs.foldl dblAdd dblZero

/-- Every entry of the ledger satisfies the token-count invariant. -/
def TokensOK (l : UsageLedger) : Prop :=
  ∀ p ∈ l, p.2.total_tokens = p.2.prompt_tokens + p.2.completion_tokens

/-- The token-count invariant on both ledgers of a meter. -/
def MeterTokensOK (m : UsageMeter) : Prop := TokensOK m.actual ∧ TokensOK m.total

/-- A history fragment whose every record is a cache hit. -/
def CachedOnly (ops : List MeterOp) : Prop :=
  ∀ r : UsageRecord, MeterOp.record r ∈ ops → r.from_cache = true

/-- The non-cached record of the notebook's first completion: model
gpt-4o-2024-08-06, 25 prompt tokens, 129 completion tokens, cost
0.154. -/
def demoRecord : UsageRecord := ⟨"gpt-4o-2024-08-06", 25, 129, 154 / 1000, false⟩

/-- The same completion served from cache. -/
def demoRecordCached : UsageRecord := ⟨"gpt-4o-2024-08-06", 25, 129, 154 / 1000, true⟩

end UsageSpec

namespace UsageSpec

/-! Basic lemmas. -/

theorem muAdd_empty_left (x : ModelUsage) : muAdd emptyUsage x = x := by
  cases x; simp [muAdd, emptyUsage]

theorem muAdd_empty_right (x : ModelUsage) : muAdd x emptyUsage = x := by
  cases x; simp [muAdd, emptyUsage]

theorem muAdd_assoc (x y z : ModelUsage) :
    muAdd (muAdd x y) z = muAdd x (muAdd y z) := by
  simp [muAdd, add_assoc]

theorem lookupUsage_ledgerAdd (l : UsageLedger) (r : UsageRecord) (k : String) :
    lookupUsage (ledgerAdd l r) k =
      if r.model_id = k then addRecord (lookupUsage l k) r else lookupUsage l k := by
  induction l with
  | nil => simp [ledgerAdd, lookupUsage]
  | cons hd tl ih =>
    obtain ⟨k', mu'⟩ := hd
    by_cases h1 : k' = r.model_id
    · by_cases h2 : k' = k
      · have h3 : r.model_id = k := h1.symm.trans h2
        simp [ledgerAdd, lookupUsage, h1, h2, h3]
      · have h3 : ¬ r.model_id = k := by rw [← h1]; exact h2
        simp [ledgerAdd, lookupUsage, h1, h2, h3]
    · by_cases h2 : k' = k
      · have h3 : ¬ r.model_id = k := fun h => h1 (h2.trans h.symm)
        have h4 : ¬ k = r.model_id := fun h => h3 h.symm
        simp [ledgerAdd, lookupUsage, h1, h2, h3, h4]
      · simp [ledgerAdd, lookupUsage, h1, h2, ih]

theorem ledgerAdd_ne_nil (l : UsageLedger) (r : UsageRecord) :
    ledgerAdd l r ≠ ([] : UsageLedger) := by
  cases l with
  | nil => simp [ledgerAdd]
  | cons hd tl =>
    obtain ⟨k', mu'⟩ := hd
    by_cases h : k' = r.model_id <;> simp [ledgerAdd, h]

theorem ledgerCost_ledgerAdd (l : UsageLedger) (r : UsageRecord) :
    ledgerCost (ledgerAdd l r) = ledgerCost l + r.cost := by
  induction l with
  | nil => simp [ledgerAdd, ledgerCost, addRecord, emptyUsage]
  | cons hd tl ih =>
    obtain ⟨k', mu'⟩ := hd
    by_cases h : k' = r.model_id
    · simp [ledgerAdd, h, ledgerCost, addRecord]; ring
    · simp [ledgerAdd, h, ledgerCost] at ih ⊢
      rw [ih]; ring

theorem lookupUsage_ledgerAddEntry (l : UsageLedger) (k : String) (mu : ModelUsage)
    (k' : String) :
    lookupUsage (ledgerAddEntry l k mu) k' =
      if k = k' then muAdd (lookupUsage l k') mu else lookupUsage l k' := by
  induction l with
  | nil =>
    by_cases h : k = k' <;> simp [ledgerAddEntry, lookupUsage, h, muAdd_empty_left]
  | cons hd tl ih =>
    obtain ⟨k0, mu0⟩ := hd
    by_cases h1 : k0 = k
    · subst h1
      by_cases h2 : k0 = k' <;> simp [ledgerAddEntry, lookupUsage, h2]
    · by_cases h2 : k0 = k'
      · subst h2
        have : ¬ k = k0 := fun h => h1 h.symm
        simp [ledgerAddEntry, lookupUsage, h1, this]
      · simp [ledgerAddEntry, lookupUsage, h1, h2, ih]

theorem ledgerCost_ledgerAddEntry (l : UsageLedger) (k : String) (mu : ModelUsage) :
    ledgerCost (ledgerAddEntry l k mu) = ledgerCost l + mu.cost := by
  induction l with
  | nil => simp [ledgerAddEntry, ledgerCost]
  | cons hd tl ih =>
    obtain ⟨k0, mu0⟩ := hd
    by_cases h : k0 = k
    · simp [ledgerAddEntry, h, ledgerCost, muAdd]; ring
    · simp [ledgerAddEntry, h, ledgerCost] at ih ⊢
      rw [ih]; ring

theorem containsKey_ledgerAddEntry (l : UsageLedger) (k : String) (mu : ModelUsage)
    (k' : String) :
    containsKey (ledgerAddEntry l k mu) k' = (decide (k = k') || containsKey l k') := by
  induction l with
  | nil => simp [ledgerAddEntry, containsKey]
  | cons hd tl ih =>
    obtain ⟨k0, mu0⟩ := hd
    by_cases h1 : k0 = k
    · subst h1
      by_cases h2 : k0 = k' <;> simp [ledgerAddEntry, containsKey, h2]
    · simp [ledgerAddEntry, h1, containsKey, ih]
      by_cases h2 : k = k' <;> by_cases h3 : k0 = k' <;> simp [h2, h3]

theorem containsKey_iff_mem (l : UsageLedger) (k : String) :
    containsKey l k = true ↔ k ∈ l.map Prod.fst := by
  induction l with
  | nil => simp [containsKey]
  | cons hd tl ih =>
    obtain ⟨k0, mu0⟩ := hd
    simp only [containsKey, List.map_cons, List.mem_cons, Bool.or_eq_true,
      decide_eq_true_iff, ih]
    constructor
    · rintro (h | h)
      · exact Or.inl h.symm
      · exact Or.inr h
    · rintro (h | h)
      · exact Or.inl h.symm
      · exact Or.inr h

theorem lookupUsage_eq_empty_of_not_contains (l : UsageLedger) (k : String)
    (h : containsKey l k = false) : lookupUsage l k = emptyUsage := by
  induction l with
  | nil => simp [lookupUsage]
  | cons hd tl ih =>
    obtain ⟨k0, mu0⟩ := hd
    simp [containsKey] at h
    simp [lookupUsage, h.1, ih h.2]

theorem containsKey_ledgerMerge (a b : UsageLedger) (k : String) :
    containsKey (ledgerMerge a b) k = (containsKey a k || containsKey b k) := by
  induction b generalizing a with
  | nil => simp [ledgerMerge, containsKey]
  | cons hd tl ih =>
    obtain ⟨k0, mu0⟩ := hd
    have hstep : ledgerMerge a ((k0, mu0) :: tl) = ledgerMerge (ledgerAddEntry a k0 mu0) tl := rfl
    rw [hstep, ih, containsKey_ledgerAddEntry]
    simp [containsKey]
    by_cases h1 : k0 = k <;> simp [h1, Bool.or_comm, Bool.or_assoc, Bool.or_left_comm]

theorem ledgerCost_ledgerMerge (a b : UsageLedger) :
    ledgerCost (ledgerMerge a b) = ledgerCost a + ledgerCost b := by
  induction b generalizing a with
  | nil => simp [ledgerMerge, ledgerCost]
  | cons hd tl ih =>
    obtain ⟨k0, mu0⟩ := hd
    have hstep : ledgerMerge a ((k0, mu0) :: tl) = ledgerMerge (ledgerAddEntry a k0 mu0) tl := rfl
    rw [hstep, ih, ledgerCost_ledgerAddEntry]
    simp [ledgerCost]; ring

theorem lookupUsage_ledgerMerge (a b : UsageLedger) (k : String)
    (hb : keysNodup b) :
    lookupUsage (ledgerMerge a b) k = muAdd (lookupUsage a k) (lookupUsage b k) := by
  induction b generalizing a with
  | nil => simp [ledgerMerge, lookupUsage, muAdd_empty_right]
  | cons hd tl ih =>
    obtain ⟨k0, mu0⟩ := hd
    have hstep : ledgerMerge a ((k0, mu0) :: tl) = ledgerMerge (ledgerAddEntry a k0 mu0) tl := rfl
    simp only [keysNodup, List.map_cons, List.nodup_cons] at hb
    rw [hstep, ih _ hb.2, lookupUsage_ledgerAddEntry]
    by_cases h1 : k0 = k
    · subst h1
      have hnc : containsKey tl k0 = false := by
        have hmem := hb.1
        rw [← containsKey_iff_mem] at hmem
        simpa using hmem
      rw [lookupUsage_eq_empty_of_not_contains tl k0 hnc]
      simp [lookupUsage, muAdd_empty_right]
    · simp [lookupUsage, h1]

/-! Lemmas about `recordAll` and the accumulation fold. -/

theorem recordAll_ok_eq (rs : List UsageRecord) :
    ∀ m0 m : UsageMeter, UsageMeter.recordAll m0 rs = Except.ok m →
      m = rs.foldl UsageMeter.recordCore m0 := by
  induction rs with
  | nil =>
    intro m0 m h
    simp [UsageMeter.recordAll] at h
    simp [h]
  | cons r rs ih =>
    intro m0 m h
    by_cases hwf : r.WellFormed
    · rw [UsageMeter.recordAll, UsageMeter.record, if_pos hwf] at h
      exact ih _ _ h
    · rw [UsageMeter.recordAll, UsageMeter.record, if_neg hwf] at h
      cases h

theorem recordAll_ok_wf (rs : List UsageRecord) :
    ∀ m0 m : UsageMeter, UsageMeter.recordAll m0 rs = Except.ok m →
      ∀ r ∈ rs, r.WellFormed := by
  induction rs with
  | nil => intro m0 m _ r hr; cases hr
  | cons r rs ih =>
    intro m0 m h r' hr'
    by_cases hwf : r.WellFormed
    · rw [UsageMeter.recordAll, UsageMeter.record, if_pos hwf] at h
      rcases List.mem_cons.1 hr' with h1 | h1
      · exact h1 ▸ hwf
      · exact ih _ _ h r' h1
    · rw [UsageMeter.recordAll, UsageMeter.record, if_neg hwf] at h
      cases h

theorem recordAll_of_wf (rs : List UsageRecord) :
    ∀ m0 : UsageMeter, (∀ r ∈ rs, r.WellFormed) →
      UsageMeter.recordAll m0 rs = Except.ok (rs.foldl UsageMeter.recordCore m0) := by
  induction rs with
  | nil => intro m0 _; simp [UsageMeter.recordAll]
  | cons r rs ih =>
    intro m0 hwf
    have h0 : r.WellFormed := hwf r (by simp)
    rw [UsageMeter.recordAll, UsageMeter.record, if_pos h0, List.foldl_cons]
    exact ih _ (fun x hx => hwf x (by simp [hx]))

theorem total_tokens_foldl (rs : List UsageRecord) (M : String) :
    ∀ m0 : UsageMeter,
      (lookupUsage (rs.foldl UsageMeter.recordCore m0).total M).total_tokens =
        (lookupUsage m0.total M).total_tokens +
          ((rs.filter (fun r => r.model_id == M)).map tokensOf).sum := by
  induction rs with
  | nil => intro m0; simp
  | cons r rs ih =>
    intro m0
    rw [List.foldl_cons, ih]
    by_cases h : r.model_id = M
    · simp only [UsageMeter.recordCore, lookupUsage_ledgerAdd, if_pos h,
        List.filter_cons, h, beq_self_eq_true, if_true, addRecord, List.map_cons,
        List.sum_cons, tokensOf]
      ring
    · have hb : (r.model_id == M) = false := by simpa using h
      simp only [UsageMeter.recordCore, lookupUsage_ledgerAdd, if_neg h,
        List.filter_cons, hb, Bool.false_eq_true, if_false]

theorem actual_tokens_foldl (rs : List UsageRecord) (M : String) :
    ∀ m0 : UsageMeter,
      (lookupUsage (rs.foldl UsageMeter.recordCore m0).actual M).total_tokens =
        (lookupUsage m0.actual M).total_tokens +
          ((rs.filter (fun r => !r.from_cache && r.model_id == M)).map tokensOf).sum := by
  induction rs with
  | nil => intro m0; simp
  | cons r rs ih =>
    intro m0
    rw [List.foldl_cons, ih]
    cases hc : r.from_cache
    · by_cases h : r.model_id = M
      · simp only [UsageMeter.recordCore, hc, Bool.false_eq_true, if_false,
          lookupUsage_ledgerAdd, if_pos h, List.filter_cons, h, beq_self_eq_true,
          Bool.not_false, Bool.true_and, if_true, addRecord, List.map_cons,
          List.sum_cons, tokensOf]
        ring
      · have hb : (r.model_id == M) = false := by simpa using h
        simp only [UsageMeter.recordCore, hc, Bool.false_eq_true, if_false,
          lookupUsage_ledgerAdd, if_neg h, List.filter_cons, hb, Bool.not_false,
          Bool.true_and, if_false]
    · simp only [UsageMeter.recordCore, hc, if_true, List.filter_cons,
        Bool.not_true, Bool.false_and, Bool.false_eq_true, if_false]

theorem cost_total_foldl (rs : List UsageRecord) :
    ∀ m0 : UsageMeter,
      ledgerCost (rs.foldl UsageMeter.recordCore m0).total =
        ledgerCost m0.total + (rs.map UsageRecord.cost).sum := by
  induction rs with
  | nil => intro m0; simp
  | cons r rs ih =>
    intro m0
    rw [List.foldl_cons, ih]
    simp only [UsageMeter.recordCore, ledgerCost_ledgerAdd, List.map_cons, List.sum_cons]
    ring

theorem cost_actual_foldl (rs : List UsageRecord) :
    ∀ m0 : UsageMeter,
      ledgerCost (rs.foldl UsageMeter.recordCore m0).actual =
        ledgerCost m0.actual +
          ((rs.filter (fun r => !r.from_cache)).map UsageRecord.cost).sum := by
  induction rs with
  | nil => intro m0; simp
  | cons r rs ih =>
    intro m0
    rw [List.foldl_cons, ih]
    cases hc : r.from_cache
    · simp only [UsageMeter.recordCore, hc, Bool.false_eq_true, if_false,
        ledgerCost_ledgerAdd, List.filter_cons, Bool.not_false, if_true,
        List.map_cons, List.sum_cons]
      ring
    · simp only [UsageMeter.recordCore, hc, if_true, List.filter_cons,
        Bool.not_true, Bool.false_eq_true, if_false]

theorem tokens_filter_split (rs : List UsageRecord) (M : String) :
    ((rs.filter (fun r => r.model_id == M)).map tokensOf).sum =
      ((rs.filter (fun r => !r.from_cache && r.model_id == M)).map tokensOf).sum +
        ((rs.filter (fun r => r.from_cache && r.model_id == M)).map tokensOf).sum := by
  induction rs with
  | nil => simp
  | cons r rs ih =>
    by_cases hm : r.model_id = M
    · have hb : (r.model_id == M) = true := by simpa using hm
      cases hc : r.from_cache
      · simp only [List.filter_cons, hb, hc, Bool.not_false, Bool.true_and,
          Bool.false_and, if_true, Bool.false_eq_true, if_false, List.map_cons,
          List.sum_cons, ih]
        ring
      · simp only [List.filter_cons, hb, hc, Bool.not_true, Bool.false_and,
          Bool.true_and, if_true, Bool.false_eq_true, if_false, List.map_cons,
          List.sum_cons, ih]
        ring
    · have hb : (r.model_id == M) = false := by simpa using hm
      simp only [List.filter_cons, hb, Bool.and_false, Bool.false_eq_true,
        if_false, ih]

theorem filter_cost_sum_le (rs : List UsageRecord) (p : UsageRecord → Bool)
    (h : ∀ r ∈ rs, 0 ≤ r.cost) :
    ((rs.filter p).map UsageRecord.cost).sum ≤ (rs.map UsageRecord.cost).sum := by
  induction rs with
  | nil => simp
  | cons r rs ih =>
    have h0 : 0 ≤ r.cost := h r (by simp)
    have ih' := ih (fun x hx => h x (by simp [hx]))
    cases hp : p r
    · simp only [List.filter_cons, hp, Bool.false_eq_true, if_false, List.map_cons,
        List.sum_cons]
      linarith
    · simp only [List.filter_cons, hp, if_true, List.map_cons, List.sum_cons]
      linarith

/-! Token-count invariant machinery. -/

theorem tokensOK_ledgerAdd (l : UsageLedger) (r : UsageRecord) (h : TokensOK l) :
    TokensOK (ledgerAdd l r) := by
  induction l with
  | nil =>
    intro p hp
    simp [ledgerAdd] at hp
    simp [hp, addRecord, emptyUsage]
  | cons hd tl ih =>
    obtain ⟨k0, mu0⟩ := hd
    have h0 : mu0.total_tokens = mu0.prompt_tokens + mu0.completion_tokens :=
      h (k0, mu0) (by simp)
    have htl : TokensOK tl := fun p hp => h p (by simp [hp])
    by_cases hk : k0 = r.model_id
    · intro p hp
      rw [ledgerAdd] at hp
      simp only [if_pos hk, List.mem_cons] at hp
      rcases hp with hp | hp
      · simp only [hp, addRecord]
        rw [h0]; ring
      · exact htl p hp
    · intro p hp
      rw [ledgerAdd] at hp
      simp only [if_neg hk, List.mem_cons] at hp
      rcases hp with hp | hp
      · rw [hp]
        exact h0
      · exact ih htl p hp

theorem meterTokensOK_applyOp (m : UsageMeter) (op : MeterOp) (h : MeterTokensOK m) :
    MeterTokensOK (applyOp m op) := by
  cases op with
  | clear =>
    constructor <;> intro p hp <;>
      simp [applyOp, UsageMeter.clear, emptyMeter] at hp
  | record r =>
    by_cases hwf : r.WellFormed
    · simp only [applyOp, UsageMeter.record, if_pos hwf]
      constructor
      · cases hc : r.from_cache <;> simp only [UsageMeter.recordCore, hc] <;>
          simp only [Bool.false_eq_true, if_false, if_true]
        · exact tokensOK_ledgerAdd _ _ h.1
        · exact h.1
      · exact tokensOK_ledgerAdd _ _ h.2
    · simp only [applyOp, UsageMeter.record, if_neg hwf]
      exact h

theorem meterTokensOK_foldl (ops : List MeterOp) :
    ∀ m : UsageMeter, MeterTokensOK m → MeterTokensOK (ops.foldl applyOp m) := by
  induction ops with
  | nil => intro m h; simpa
  | cons op ops ih => intro m h; exact ih _ (meterTokensOK_applyOp m op h)

/-! History lemmas for `runOps` and `opsSinceClear`. -/

theorem runOps_append (ops : List MeterOp) (op : MeterOp) :
    runOps (ops ++ [op]) = applyOp (runOps ops) op := by
  simp [runOps, List.foldl_append]

theorem opsSinceClear_append_clear (ops : List MeterOp) :
    opsSinceClear (ops ++ [MeterOp.clear]) = [] := by
  simp [opsSinceClear, List.foldl_append]

theorem opsSinceClear_append_record (ops : List MeterOp) (r : UsageRecord) :
    opsSinceClear (ops ++ [MeterOp.record r]) =
      opsSinceClear ops ++ [MeterOp.record r] := by
  simp [opsSinceClear, List.foldl_append]

theorem cachedOnly_append (xs : List MeterOp) (r : UsageRecord) :
    CachedOnly (xs ++ [MeterOp.record r]) ↔ CachedOnly xs ∧ r.from_cache = true := by
  unfold CachedOnly
  constructor
  · intro h
    exact ⟨fun r' hr' => h r' (by simp [hr']), h r (by simp)⟩
  · rintro ⟨h1, h2⟩ r' hr'
    rcases List.mem_append.1 hr' with h | h
    · exact h1 r' h
    · simp only [List.mem_singleton, MeterOp.record.injEq] at h
      exact h ▸ h2

theorem runOps_empty_iff (ops : List MeterOp)
    (hwf : ∀ r : UsageRecord, MeterOp.record r ∈ ops → r.WellFormed) :
    ((runOps ops).actual = ([] : UsageLedger) ↔ CachedOnly (opsSinceClear ops)) ∧
    ((runOps ops).total = ([] : UsageLedger) ↔ opsSinceClear ops = []) := by
  induction ops using List.reverseRecOn with
  | nil =>
    constructor <;> simp [runOps, emptyMeter, CachedOnly, opsSinceClear]
  | append_singleton ops op ih =>
    have hwf' : ∀ r : UsageRecord, MeterOp.record r ∈ ops → r.WellFormed :=
      fun r hr => hwf r (by simp [hr])
    obtain ⟨ih1, ih2⟩ := ih hwf'
    cases op with
    | clear =>
      rw [runOps_append, opsSinceClear_append_clear]
      constructor <;> simp [applyOp, UsageMeter.clear, emptyMeter, CachedOnly]
    | record r =>
      have hrwf : r.WellFormed := hwf r (by simp)
      rw [runOps_append, opsSinceClear_append_record]
      simp only [applyOp, UsageMeter.record, if_pos hrwf]
      cases hc : r.from_cache
      · constructor
        · rw [cachedOnly_append]
          constructor
          · intro h
            exact absurd h (by simp [UsageMeter.recordCore, hc, ledgerAdd_ne_nil])
          · rintro ⟨-, h2⟩
            rw [hc] at h2
            cases h2
        · constructor
          · intro h
            exact absurd h (by simp [UsageMeter.recordCore, ledgerAdd_ne_nil])
          · intro h
            simp at h
      · constructor
        · rw [cachedOnly_append]
          simp only [UsageMeter.recordCore, hc, if_true]
          rw [ih1]
          exact ⟨fun h => ⟨h, trivial⟩, fun h => h.1⟩
        · constructor
          · intro h
            exact absurd h (by simp [UsageMeter.recordCore, ledgerAdd_ne_nil])
          · intro h
            simp at h

theorem getActualUsage_eq_none_iff (m : UsageMeter) :
    m.getActualUsage = none ↔ m.actual = ([] : UsageLedger) := by
  unfold UsageMeter.getActualUsage
  by_cases h : m.actual = ([] : UsageLedger) <;> simp [h]

theorem getTotalUsage_eq_none_iff (m : UsageMeter) :
    m.getTotalUsage = none ↔ m.total = ([] : UsageLedger) := by
  unfold UsageMeter.getTotalUsage
  by_cases h : m.total = ([] : UsageLedger) <;> simp [h]

/-! Aggregation fold lemmas. -/

theorem gather_fold_lookup (es : List Entity) :
    ∀ (acc : GatherResult) (k : String), (∀ e ∈ es, Entity.WF e) →
      lookupUsage (es.foldl gatherStep acc).usage_excluding_cached_inference k =
        muAdd (lookupUsage acc.usage_excluding_cached_inference k)
          (muSum (es.map (fun e => lookupUsage (entityActual e) k))) ∧
      lookupUsage (es.foldl gatherStep acc).usage_including_cached_inference k =
        muAdd (lookupUsage acc.usage_including_cached_inference k)
          (muSum (es.map (fun e => lookupUsage (entityTotal e) k))) := by
  induction es with
  | nil => intro acc k _; simp [muSum, muAdd_empty_right]
  | cons e es ih =>
    intro acc k hwf
    have hewf : Entity.WF e := hwf e (by simp)
    have ih' := ih (gatherStep acc e) k (fun x hx => hwf x (by simp [hx]))
    rw [List.foldl_cons]
    constructor
    · rw [ih'.1]
      simp only [gatherStep]
      rw [lookupUsage_ledgerMerge _ _ _ hewf.1]
      simp only [List.map_cons, muSum, List.foldr_cons, muAdd_assoc]
    · rw [ih'.2]
      simp only [gatherStep]
      rw [lookupUsage_ledgerMerge _ _ _ hewf.2]
      simp only [List.map_cons, muSum, List.foldr_cons, muAdd_assoc]

theorem gather_fold_cost (es : List Entity) :
    ∀ acc : GatherResult,
      ledgerCost (es.foldl gatherStep acc).usage_excluding_cached_inference =
        ledgerCost acc.usage_excluding_cached_inference +
          (es.map (fun e => ledgerCost (entityActual e))).sum ∧
      ledgerCost (es.foldl gatherStep acc).usage_including_cached_inference =
        ledgerCost acc.usage_including_cached_inference +
          (es.map (fun e => ledgerCost (entityTotal e))).sum := by
  induction es with
  | nil => intro acc; simp
  | cons e es ih =>
    intro acc
    have ih' := ih (gatherStep acc e)
    rw [List.foldl_cons]
    constructor
    · rw [ih'.1]
      simp only [gatherStep, ledgerCost_ledgerMerge, List.map_cons, List.sum_cons]
      ring
    · rw [ih'.2]
      simp only [gatherStep, ledgerCost_ledgerMerge, List.map_cons, List.sum_cons]
      ring

theorem gather_fold_contains (es : List Entity) :
    ∀ (acc : GatherResult) (k : String),
      containsKey (es.foldl gatherStep acc).usage_excluding_cached_inference k =
        (containsKey acc.usage_excluding_cached_inference k ||
          es.any (fun e => containsKey (entityActual e) k)) ∧
      containsKey (es.foldl gatherStep acc).usage_including_cached_inference k =
        (containsKey acc.usage_including_cached_inference k ||
          es.any (fun e => containsKey (entityTotal e) k)) := by
  induction es with
  | nil => intro acc k; simp
  | cons e es ih =>
    intro acc k
    have ih' := ih (gatherStep acc e) k
    rw [List.foldl_cons]
    constructor
    · rw [ih'.1]
      simp [gatherStep, containsKey_ledgerMerge, Bool.or_assoc]
    · rw [ih'.2]
      simp [gatherStep, containsKey_ledgerMerge, Bool.or_assoc]

theorem gatherSt_fold (es : List Entity) :
    ∀ (a : GatherResult) (l : List Entity),
      es.foldl (fun acc e => (gatherStep acc.1 e, acc.2 ++ [e])) (a, l) =
        (es.foldl gatherStep a, l ++ es) := by
  induction es with
  | nil => intro a l; simp
  | cons e es ih =>
    intro a l
    rw [List.foldl_cons, List.foldl_cons, ih]
    simp

/-! Claim theorems. -/

/-- C3: in every `ModelUsage` entry of either ledger of a meter, after
any sequence of `record` and `clear` operations, `total_tokens` equals
`prompt_tokens` plus `completion_tokens`. -/
theorem C3_total_tokens_invariant (ops : List MeterOp) (k : String) (mu : ModelUsage)
    (h : (k, mu) ∈ (runOps ops).actual ∨ (k, mu) ∈ (runOps ops).total) :
    mu.total_tokens = mu.prompt_tokens + mu.completion_tokens := by
  have hOK : MeterTokensOK (runOps ops) := by
    have hstart : MeterTokensOK emptyMeter := by
      constructor <;> intro p hp <;> simp [emptyMeter] at hp
    exact meterTokensOK_foldl ops emptyMeter hstart
  rcases h with h | h
  · exact hOK.1 (k, mu) h
  · exact hOK.2 (k, mu) h

/-- Witness for C3 at a concrete history of one non-cached record. -/
theorem C3_total_tokens_invariant_witness :
    ((("gpt-4o-2024-08-06", (⟨154 / 1000, 25, 129, 154⟩ : ModelUsage)) ∈
        (runOps [MeterOp.record demoRecord]).actual ∨
      ("gpt-4o-2024-08-06", (⟨154 / 1000, 25, 129, 154⟩ : ModelUsage)) ∈
        (runOps [MeterOp.record demoRecord]).total) ∧
      (⟨154 / 1000, 25, 129, 154⟩ : ModelUsage).total_tokens =
        (⟨154 / 1000, 25, 129, 154⟩ : ModelUsage).prompt_tokens +
          (⟨154 / 1000, 25, 129, 154⟩ : ModelUsage).completion_tokens) := by
  have hwf : demoRecord.WellFormed := by
    refine ⟨by norm_num [demoRecord], by norm_num [demoRecord], by norm_num [demoRecord]⟩
  have hmem : ("gpt-4o-2024-08-06", (⟨154 / 1000, 25, 129, 154⟩ : ModelUsage)) ∈
      (runOps [MeterOp.record demoRecord]).actual := by
    have hrun : runOps [MeterOp.record demoRecord] =
        UsageMeter.recordCore emptyMeter demoRecord := by
      simp only [runOps, List.foldl_cons, List.foldl_nil, applyOp, UsageMeter.record,
        if_pos hwf]
    rw [hrun]
    simp only [UsageMeter.recordCore, emptyMeter, demoRecord, Bool.false_eq_true,
      if_false, ledgerAdd, addRecord, emptyUsage]
    norm_num [List.mem_singleton, Prod.mk.injEq, ModelUsage.mk.injEq]
  exact ⟨Or.inl hmem, C3_total_tokens_invariant [MeterOp.record demoRecord] _ _ (Or.inl hmem)⟩

/-- C7: after `clear`, every summary query returns the same no-data
state as on a freshly created meter, regardless of the prior history. -/
theorem C7_clear_resets (ops : List MeterOp) (m : UsageMeter) (modes : List String) :
    runOps (ops ++ [MeterOp.clear]) = emptyMeter ∧
    m.clear.getActualUsage = emptyMeter.getActualUsage ∧
    m.clear.getTotalUsage = emptyMeter.getTotalUsage ∧
    m.clear.formatSummary modes = emptyMeter.formatSummary modes ∧
    emptyMeter.getActualUsage = none ∧
    emptyMeter.getTotalUsage = none ∧
    (modes.all validMode = true →
      emptyMeter.formatSummary modes =
        Except.ok "No usage summary. Please call create first.") := by
  refine ⟨?_, rfl, rfl, rfl, rfl, rfl, ?_⟩
  · rw [runOps_append]
    rfl
  · intro hvalid
    rw [UsageMeter.formatSummary, if_pos hvalid]
    rfl

/-- Witness for C7 at a concrete history and mode list. -/
theorem C7_clear_resets_witness :
    runOps ([MeterOp.record demoRecord] ++ [MeterOp.clear]) = emptyMeter ∧
    (["actual", "total"].all validMode = true ∧
      emptyMeter.formatSummary ["actual", "total"] =
        Except.ok "No usage summary. Please call create first.") := by
  have h := C7_clear_resets [MeterOp.record demoRecord] emptyMeter ["actual", "total"]
  have hvalid : (["actual", "total"].all validMode) = true := by decide
  exact ⟨h.1, hvalid, h.2.2.2.2.2.2 hvalid⟩

/-- C8: `gather` leaves the meter state of every entity unchanged (the
state-passing form of the aggregator returns every entity exactly as it
was while computing the same result). -/
theorem C8_gather_preserves_entities (es : List Entity) :
    (gatherSt es).2 = es ∧ (gatherSt es).1 = gather es := by
  have h := gatherSt_fold es ⟨[], []⟩ []
  unfold gatherSt gather
  rw [h]
  simp

/-- C1: for every record sequence fed through `record`, the total
ledger's entry for a model has `total_tokens` equal to the actual
ledger's entry's `total_tokens` plus the summed token counts of the
cached records for that model; and the notebook scenario (0.154
non-cached then cached) yields actual cost 0.154 / tokens 154 and total
cost 0.308 / tokens 308. -/
theorem C1_total_tokens_decomposition (rs : List UsageRecord) (m : UsageMeter) (M : String)
    (h : UsageMeter.recordAll emptyMeter rs = Except.ok m) :
    (lookupUsage m.total M).total_tokens =
      (lookupUsage m.actual M).total_tokens +
        ((rs.filter (fun r => r.from_cache && r.model_id == M)).map tokensOf).sum ∧
    (∃ m2 : UsageMeter,
      UsageMeter.recordAll emptyMeter [demoRecord, demoRecordCached] = Except.ok m2 ∧
      ledgerCost m2.actual = 154 / 1000 ∧
      ledgerCost m2.total = 308 / 1000 ∧
      (lookupUsage m2.actual "gpt-4o-2024-08-06").total_tokens = 154 ∧
      (lookupUsage m2.total "gpt-4o-2024-08-06").total_tokens = 308) := by
  constructor
  · have heq := recordAll_ok_eq rs emptyMeter m h
    subst heq
    rw [total_tokens_foldl rs M emptyMeter, actual_tokens_foldl rs M emptyMeter]
    simp only [emptyMeter, lookupUsage, emptyUsage]
    rw [tokens_filter_split rs M]
    ring
  · have hwf : ∀ r ∈ [demoRecord, demoRecordCached], r.WellFormed := by
      intro r hr
      rcases List.mem_cons.1 hr with h1 | h1
      · subst h1
        exact ⟨by norm_num [demoRecord], by norm_num [demoRecord], by norm_num [demoRecord]⟩
      · rw [List.mem_singleton.1 h1]
        exact ⟨by norm_num [demoRecordCached], by norm_num [demoRecordCached],
          by norm_num [demoRecordCached]⟩
    refine ⟨_, recordAll_of_wf [demoRecord, demoRecordCached] emptyMeter hwf, ?_, ?_, ?_, ?_⟩ <;>
      simp only [List.foldl_cons, List.foldl_nil, UsageMeter.recordCore, emptyMeter,
        demoRecord, demoRecordCached, Bool.false_eq_true, if_false, if_true, ledgerAdd,
        addRecord, emptyUsage, ledgerCost, lookupUsage, List.map_cons, List.map_nil,
        List.sum_cons, List.sum_nil, if_pos] <;>
      norm_num

/-- Witness for C1 at the notebook's two-record scenario. -/
theorem C1_total_tokens_decomposition_witness :
    ∃ m : UsageMeter,
      UsageMeter.recordAll emptyMeter [demoRecord, demoRecordCached] = Except.ok m ∧
      (lookupUsage m.total "gpt-4o-2024-08-06").total_tokens =
        (lookupUsage m.actual "gpt-4o-2024-08-06").total_tokens +
          (([demoRecord, demoRecordCached].filter
              (fun r => r.from_cache && r.model_id == "gpt-4o-2024-08-06")).map
            tokensOf).sum := by
  have hwf : ∀ r ∈ [demoRecord, demoRecordCached], r.WellFormed := by
    intro r hr
    rcases List.mem_cons.1 hr with h1 | h1
    · subst h1
      exact ⟨by norm_num [demoRecord], by norm_num [demoRecord], by norm_num [demoRecord]⟩
    · rw [List.mem_singleton.1 h1]
      exact ⟨by norm_num [demoRecordCached], by norm_num [demoRecordCached],
        by norm_num [demoRecordCached]⟩
  have hok := recordAll_of_wf [demoRecord, demoRecordCached] emptyMeter hwf
  exact ⟨_, hok, (C1_total_tokens_decomposition _ _ _ hok).1⟩

/-- C4: for every meter state reachable through `record` (which admits
only well-formed records), the total ledger's cost is at least the
actual ledger's cost. -/
theorem C4_total_cost_ge_actual (rs : List UsageRecord) (m : UsageMeter)
    (h : UsageMeter.recordAll emptyMeter rs = Except.ok m) :
    ledgerCost m.actual ≤ ledgerCost m.total := by
  have hwf := recordAll_ok_wf rs emptyMeter m h
  have heq := recordAll_ok_eq rs emptyMeter m h
  subst heq
  rw [cost_actual_foldl rs emptyMeter, cost_total_foldl rs emptyMeter]
  simp only [emptyMeter, ledgerCost, List.map_nil, List.sum_nil, zero_add]
  exact filter_cost_sum_le rs _ (fun r hr => (hwf r hr).2.2)

/-- Witness for C4 at the notebook's two-record scenario. -/
theorem C4_total_cost_ge_actual_witness :
    ∃ m : UsageMeter,
      UsageMeter.recordAll emptyMeter [demoRecord, demoRecordCached] = Except.ok m ∧
      ledgerCost m.actual ≤ ledgerCost m.total := by
  have hwf : ∀ r ∈ [demoRecord, demoRecordCached], r.WellFormed := by
    intro r hr
    rcases List.mem_cons.1 hr with h1 | h1
    · subst h1
      exact ⟨by norm_num [demoRecord], by norm_num [demoRecord], by norm_num [demoRecord]⟩
    · rw [List.mem_singleton.1 h1]
      exact ⟨by norm_num [demoRecordCached], by norm_num [demoRecordCached],
        by norm_num [demoRecordCached]⟩
  have hok := recordAll_of_wf [demoRecord, demoRecordCached] emptyMeter hwf
  exact ⟨_, hok, C4_total_cost_ge_actual _ _ hok⟩

/-- C5: for sequences of exclusively non-cached records, the actual
ledger's total cost is the sum of the record costs and coincides with
the total ledger's total cost. -/
theorem C5_actual_cost_sum (rs : List UsageRecord) (m : UsageMeter)
    (hnc : ∀ r ∈ rs, r.from_cache = false)
    (h : UsageMeter.recordAll emptyMeter rs = Except.ok m) :
    ledgerCost m.actual = (rs.map UsageRecord.cost).sum ∧
    ledgerCost m.actual = ledgerCost m.total := by
  have heq := recordAll_ok_eq rs emptyMeter m h
  subst heq
  have hfilter : rs.filter (fun r => !r.from_cache) = rs := by
    rw [List.filter_eq_self]
    intro r hr
    simp [hnc r hr]
  rw [cost_actual_foldl rs emptyMeter, cost_total_foldl rs emptyMeter, hfilter]
  simp [emptyMeter, ledgerCost]

/-- Witness for C5 at a single-record non-cached history. -/
theorem C5_actual_cost_sum_witness :
    ∃ m : UsageMeter,
      UsageMeter.recordAll emptyMeter [demoRecord] = Except.ok m ∧
      ledgerCost m.actual = ([demoRecord].map UsageRecord.cost).sum ∧
      ledgerCost m.actual = ledgerCost m.total := by
  have hwf : ∀ r ∈ [demoRecord], r.WellFormed := by
    intro r hr
    rw [List.mem_singleton.1 hr]
    exact ⟨by norm_num [demoRecord], by norm_num [demoRecord], by norm_num [demoRecord]⟩
  have hnc : ∀ r ∈ [demoRecord], r.from_cache = false := by
    intro r hr
    rw [List.mem_singleton.1 hr]
    rfl
  have hok := recordAll_of_wf [demoRecord] emptyMeter hwf
  exact ⟨_, hok, C5_actual_cost_sum _ _ hnc hok⟩

/-- C6: `getActualUsage` is absent exactly when no non-cached record was
recorded since creation or the last `clear`, `getTotalUsage` is absent
exactly when no record at all was; after only cached records,
`getActualUsage` is absent while `getTotalUsage` returns a non-empty
ledger. -/
theorem C6_absent_usage_iff (ops : List MeterOp)
    (hwf : ∀ r : UsageRecord, MeterOp.record r ∈ ops → r.WellFormed) :
    ((runOps ops).getActualUsage = none ↔ CachedOnly (opsSinceClear ops)) ∧
    ((runOps ops).getTotalUsage = none ↔ opsSinceClear ops = []) ∧
    ((runOps [MeterOp.record demoRecordCached]).getActualUsage = none ∧
      ∃ l : UsageLedger,
        (runOps [MeterOp.record demoRecordCached]).getTotalUsage = some l ∧
          l ≠ ([] : UsageLedger)) := by
  obtain ⟨h1, h2⟩ := runOps_empty_iff ops hwf
  have hcwf : demoRecordCached.WellFormed :=
    ⟨by norm_num [demoRecordCached], by norm_num [demoRecordCached],
      by norm_num [demoRecordCached]⟩
  have hrun : runOps [MeterOp.record demoRecordCached] =
      UsageMeter.recordCore emptyMeter demoRecordCached := by
    simp only [runOps, List.foldl_cons, List.foldl_nil, applyOp, UsageMeter.record,
      if_pos hcwf]
  refine ⟨?_, ?_, ?_, ?_⟩
  · rw [getActualUsage_eq_none_iff]
    exact h1
  · rw [getTotalUsage_eq_none_iff]
    exact h2
  · rw [hrun]
    rfl
  · rw [hrun]
    refine ⟨ledgerAdd ([] : UsageLedger) demoRecordCached, ?_, ledgerAdd_ne_nil _ _⟩
    have htot : (UsageMeter.recordCore emptyMeter demoRecordCached).total =
        ledgerAdd ([] : UsageLedger) demoRecordCached := rfl
    rw [UsageMeter.getTotalUsage, htot, if_neg (ledgerAdd_ne_nil _ _)]

/-- Witness for C6 at a concrete all-cached history. -/
theorem C6_absent_usage_iff_witness :
    (runOps [MeterOp.record demoRecordCached]).getActualUsage = none ∧
    ¬ ((runOps [MeterOp.record demoRecordCached]).getTotalUsage = none) := by
  have hwf : ∀ r : UsageRecord, MeterOp.record r ∈ [MeterOp.record demoRecordCached] →
      r.WellFormed := by
    intro r hr
    have h1 : r = demoRecordCached := by
      simpa using hr
    rw [h1]
    exact ⟨by norm_num [demoRecordCached], by norm_num [demoRecordCached],
      by norm_num [demoRecordCached]⟩
  have h := C6_absent_usage_iff [MeterOp.record demoRecordCached] hwf
  refine ⟨h.2.2.1, ?_⟩
  obtain ⟨l, hl, hlne⟩ := h.2.2.2
  intro hcontra
  rw [hl] at hcontra
  cases hcontra

/-- C2: `gather` combines the per-model entries of all entities by
elementwise summation (union of model keys), treats entities without a
meter as empty contributions, returns empty ledgers on the empty
sequence, and on [no-meter entity, entity with one 0.154 non-cached
record] yields combined total cost 0.154 in both ledgers. -/
theorem C2_gather_combines (es : List Entity) (k : String)
    (hwf : ∀ e ∈ es, Entity.WF e) :
    gather ([] : List Entity) = ⟨[], []⟩ ∧
    lookupUsage (gather es).usage_excluding_cached_inference k =
      muSum (es.map (fun e => lookupUsage (entityActual e) k)) ∧
    lookupUsage (gather es).usage_including_cached_inference k =
      muSum (es.map (fun e => lookupUsage (entityTotal e) k)) ∧
    containsKey (gather es).usage_excluding_cached_inference k =
      es.any (fun e => containsKey (entityActual e) k) ∧
    containsKey (gather es).usage_including_cached_inference k =
      es.any (fun e => containsKey (entityTotal e) k) ∧
    ledgerCost (gather es).usage_excluding_cached_inference =
      (es.map (fun e => ledgerCost (entityActual e))).sum ∧
    ledgerCost (gather es).usage_including_cached_inference =
      (es.map (fun e => ledgerCost (entityTotal e))).sum ∧
    ledgerCost (gather [⟨none⟩,
        ⟨some (UsageMeter.recordCore emptyMeter
          demoRecord)⟩]).usage_excluding_cached_inference = 154 / 1000 ∧
    ledgerCost (gather [⟨none⟩,
        ⟨some (UsageMeter.recordCore emptyMeter
          demoRecord)⟩]).usage_including_cached_inference = 154 / 1000 := by
  have hl := gather_fold_lookup es ⟨[], []⟩ k hwf
  have hcost := gather_fold_cost es ⟨[], []⟩
  have hck := gather_fold_contains es ⟨[], []⟩ k
  unfold gather
  refine ⟨rfl, ?_, ?_, ?_, ?_, ?_, ?_, ?_, ?_⟩
  · rw [hl.1]
    simp [lookupUsage, muAdd_empty_left]
  · rw [hl.2]
    simp [lookupUsage, muAdd_empty_left]
  · rw [hck.1]
    simp [containsKey]
  · rw [hck.2]
    simp [containsKey]
  · rw [hcost.1]
    simp [ledgerCost]
  · rw [hcost.2]
    simp [ledgerCost]
  · simp only [List.foldl_cons, List.foldl_nil, gatherStep, entityActual, entityTotal,
      UsageMeter.recordCore, demoRecord, Bool.false_eq_true, if_false, ledgerAdd,
      addRecord, emptyUsage, emptyMeter, ledgerMerge, ledgerAddEntry, ledgerCost,
      List.map_cons, List.map_nil, List.sum_cons, List.sum_nil]
    norm_num
  · simp only [List.foldl_cons, List.foldl_nil, gatherStep, entityActual, entityTotal,
      UsageMeter.recordCore, demoRecord, Bool.false_eq_true, if_false, ledgerAdd,
      addRecord, emptyUsage, emptyMeter, ledgerMerge, ledgerAddEntry, ledgerCost,
      List.map_cons, List.map_nil, List.sum_cons, List.sum_nil]
    norm_num

/-- Witness for C2 at the notebook's aggregation scenario. -/
theorem C2_gather_combines_witness :
    ledgerCost (gather [⟨none⟩,
        ⟨some (UsageMeter.recordCore emptyMeter
          demoRecord)⟩]).usage_excluding_cached_inference = 154 / 1000 ∧
    ledgerCost (gather [⟨none⟩,
        ⟨some (UsageMeter.recordCore emptyMeter
          demoRecord)⟩]).usage_including_cached_inference = 154 / 1000 := by
  have hwf : ∀ e ∈ ([⟨none⟩,
      ⟨some (UsageMeter.recordCore emptyMeter demoRecord)⟩] : List Entity),
      Entity.WF e := by
    intro e he
    rcases List.mem_cons.1 he with h1 | h1
    · subst h1
      exact ⟨by simp [keysNodup, entityActual], by simp [keysNodup, entityTotal]⟩
    · rw [List.mem_singleton.1 h1]
      constructor
      · simp [keysNodup, entityActual, UsageMeter.recordCore, demoRecord, emptyMeter,
          ledgerAdd]
      · simp [keysNodup, entityTotal, UsageMeter.recordCore, demoRecord, emptyMeter,
          ledgerAdd]
  have h := C2_gather_combines [⟨none⟩,
    ⟨some (UsageMeter.recordCore emptyMeter demoRecord)⟩] "gpt-4o-2024-08-06" hwf
  exact ⟨h.2.2.2.2.2.2.2.1, h.2.2.2.2.2.2.2.2⟩

/-- C9: a record with negative token counts is rejected with an
invalid-argument error and leaves the meter unchanged, and a summary
request with an unknown mode flag is rejected with an invalid-argument
error. -/
theorem C9_invalid_inputs (m : UsageMeter) (r : UsageRecord) (modes : List String) :
    ((r.prompt_tokens < 0 ∨ r.completion_tokens < 0) →
      m.record r = Except.error "invalid argument: usage record fields must be non-negative" ∧
      applyOp m (MeterOp.record r) = m) ∧
    ((∃ s ∈ modes, validMode s = false) →
      m.formatSummary modes =
        Except.error "invalid mode flag: mode must be a subset of actual and total") := by
  constructor
  · intro hneg
    have hnwf : ¬ r.WellFormed := by
      intro hwfr
      rcases hneg with h | h
      · exact absurd hwfr.1 (not_le.mpr h)
      · exact absurd hwfr.2.1 (not_le.mpr h)
    have hrec : m.record r =
        Except.error "invalid argument: usage record fields must be non-negative" := by
      rw [UsageMeter.record, if_neg hnwf]
    refine ⟨hrec, ?_⟩
    simp only [applyOp, hrec]
  · rintro ⟨s, hs, hbad⟩
    have hall : ¬ (modes.all validMode = true) := by
      intro hcontra
      have hgood := List.all_eq_true.mp hcontra s hs
      rw [hbad] at hgood
      cases hgood
    rw [UsageMeter.formatSummary, if_neg hall]

/-- Witness for C9 at a negative-token record and an unknown mode. -/
theorem C9_invalid_inputs_witness :
    (((⟨"m", -1, 5, 0, false⟩ : UsageRecord).prompt_tokens < 0 ∨
        (⟨"m", -1, 5, 0, false⟩ : UsageRecord).completion_tokens < 0) ∧
      emptyMeter.record ⟨"m", -1, 5, 0, false⟩ =
        Except.error "invalid argument: usage record fields must be non-negative" ∧
      applyOp emptyMeter (MeterOp.record ⟨"m", -1, 5, 0, false⟩) = emptyMeter) ∧
    ((∃ s ∈ ["bogus"], validMode s = false) ∧
      emptyMeter.formatSummary ["bogus"] =
        Except.error "invalid mode flag: mode must be a subset of actual and total") := by
  have h := C9_invalid_inputs emptyMeter ⟨"m", -1, 5, 0, false⟩ ["bogus"]
  have hneg : ((⟨"m", -1, 5, 0, false⟩ : UsageRecord).prompt_tokens < 0 ∨
      (⟨"m", -1, 5, 0, false⟩ : UsageRecord).completion_tokens < 0) :=
    Or.inl (by norm_num)
  have hbad : ∃ s ∈ ["bogus"], validMode s = false := ⟨"bogus", by simp, by decide⟩
  exact ⟨⟨hneg, (h.1 hneg).1, (h.1 hneg).2⟩, hbad, h.2 hbad⟩

set_option maxRecDepth 40000 in
/-- C10: cost accumulation with binary64 floating-point addition on the
entity costs 0.572 and 0.193 yields the double written
0.7649999999999999, which differs from the exact decimal 0.765 and from
the double nearest 0.765. -/
theorem C10_float_rounding :
    costFoldFl [dblRound 572 1000, dblRound 193 1000] =
      dblRound 7649999999999999 10000000000000000 ∧
    dblVal (costFoldFl [dblRound 572 1000, dblRound 193 1000]) ≠ (765 : ℚ) / 1000 ∧
    costFoldFl [dblRound 572 1000, dblRound 193 1000] ≠ dblRound 765 1000 := by
  have h1 : costFoldFl [dblRound 572 1000, dblRound 193 1000] = (6890507429876858, -53) := by
    decide
  have h2 : dblRound 7649999999999999 10000000000000000 = (6890507429876858, -53) := by
    decide
  have h3 : dblRound 765 1000 = (6890507429876859, -53) := by
    decide
  refine ⟨h1.trans h2.symm, ?_, ?_⟩
  · rw [h1]
    rw [dblVal]
    norm_num
    rw [show ((53 : ℤ)).toNat = 53 from rfl]
    norm_num
  · rw [h1, h3]
    intro hcontra
    rw [Prod.mk.injEq] at hcontra
    norm_num at hcontra

end UsageSpec
